import Mathlib

/-!
Verification of the tabular cleaning and export pipeline of `app.py`
(Financial Data Sweeper).

The program keeps an in-memory table (a pandas DataFrame) and exposes four
operations: `load_data` (extension dispatch plus CSV parsing), `clean_data`
(missing-value handling followed by duplicate removal), `detect_outliers`
(IQR rule on one column), and `convert_df` (CSV serialization).

Embedding choices:
* a DataFrame is a header (column names), a list of column kinds, and a
  list of rows of cells;
* numeric cells hold exact rationals (`Rat`); binary floating-point
  formatting is outside the model, so the serialization theorems restrict
  numeric cells to integer values (int64 columns);
* missing values (`NaN`) are the cell `Cell.na`;
* byte streams are lists of characters;
* Python functions that can return `None` or raise are embedded with
  `Option`;
* `clean_data` mutates its argument in the fill branches
  (`df[numeric_cols] = df[numeric_cols].fillna(...)` assigns in place), so
  its embedding returns a pair: the state of the caller's frame after the
  call, and the returned frame (`none` when the Python function falls off
  the end and returns `None`).
-/

/-- Column kind as recorded by pandas dtype inference: `numeric` for
int64/float64 columns, `text` for object (string) columns. -/
inductive Dtype
  | numeric
  | text
  deriving DecidableEq, Repr

/-- One cell of a DataFrame: a numeric value, a string, or missing (NaN). -/
inductive Cell
  | num (q : Rat)
  | str (s : String)
  | na
  deriving DecidableEq, Repr

/-- A DataFrame: named columns with fixed kinds, and ordered rows.
Well-formed frames have `dtypes.length = header.length` and every row of
that same length; the theorems state these side conditions explicitly. -/
structure DF where
  header : List String
  dtypes : List Dtype
  rows : List (List Cell)
  deriving DecidableEq, Repr

/-- Cells of column `j`, top to bottom (pandas `df[col]`). -/
def colCells (df : DF) (j : Nat) : List Cell :=
  df.rows.map (fun r => r.getD j Cell.na)

/-- Numeric payload of a cell, if any. -/
def cellNum : Cell → Option Rat
  | Cell.num q => some q
  | _ => none

/-- Non-missing numeric values of column `j` (pandas skips NaN when
computing mean/median/quantile). -/
def colNums (df : DF) (j : Nat) : List Rat :=
  (colCells df j).filterMap cellNum

/-- Mean of a list of values; `none` on the empty list (pandas: the mean of
an all-NaN column is NaN, and `fillna(NaN)` fills nothing). -/
def meanOf (l : List Rat) : Option Rat :=
  if l.isEmpty then none else some (l.sum / (l.length : Rat))

/-- Median as pandas computes it: sort, take the middle element, or the
average of the two middle elements for even length; `none` on the empty
list. -/
def medianOf (l : List Rat) : Option Rat :=
  let s := List.insertionSort (· ≤ ·) l
  if s.isEmpty then none
  else if s.length % 2 = 1 then some (s.getD (s.length / 2) 0)
  else some ((s.getD (s.length / 2 - 1) 0 + s.getD (s.length / 2) 0) / 2)

/-- The four numeric fill strategies appearing in `clean_data`. -/
inductive FillHow
  | mean
  | median
  | zero
  | const (c : Rat)
  deriving DecidableEq, Repr

/-- Fill value used for numeric column `j` under a given strategy
(`df[numeric_cols].mean()` / `.median()` / the scalars `0` and
`custom_fill`). -/
def fillValue (df : DF) (how : FillHow) (j : Nat) : Option Rat :=
  match how with
  | FillHow.mean => meanOf (colNums df j)
  | FillHow.median => medianOf (colNums df j)
  | FillHow.zero => some 0
  | FillHow.const c => some c

/-- Per-column fill values: numeric columns get their strategy's value,
non-numeric columns are untouched (`select_dtypes(include=['number'])`). -/
def fillsFor (df : DF) (how : FillHow) : List (Option Rat) :=
  (List.range df.dtypes.length).map (fun j =>
    if df.dtypes.getD j Dtype.text = Dtype.numeric then fillValue df how j else none)

/-- Apply a fill value to one cell: only missing cells change, and only
when a fill value exists. -/
def fillCell : Option Rat → Cell → Cell
  | some v, Cell.na => Cell.num v
  | _, c => c

/-- The in-place update `df[numeric_cols] = df[numeric_cols].fillna(...)`. -/
def fillna_numeric (df : DF) (how : FillHow) : DF :=
  { df with rows := df.rows.map (fun r => List.zipWith fillCell (fillsFor df how) r) }

/-- Embedding of `df.dropna()`: keep the rows with no missing cell in any
column. -/
def dropna (df : DF) : DF :=
  { df with rows := df.rows.filter (fun r => r.all (fun c => c != Cell.na)) }

/-- Exact-match row dedup keeping the first occurrence, order preserved
(pandas `drop_duplicates()` with default arguments). -/
def dedupAux : List (List Cell) → List (List Cell) → List (List Cell)
  | _, [] => []
  | seen, r :: rest =>
    if r ∈ seen then dedupAux seen rest else r :: dedupAux (r :: seen) rest

/-- Embedding of `df.drop_duplicates()`. -/
def drop_duplicates (df : DF) : DF :=
  { df with rows := dedupAux [] df.rows }

/-- Embedding of `clean_data(df, method, custom_fill)` from `app.py`.
The first component of the result is the caller's frame after the call
(the fill branches assign into `df` in place); the second is the returned
frame, `none` when the Python function returns `None` (unknown method, or
`custom` with no fill constant). -/
def clean_data (df : DF) (method : String) (custom_fill : Option Rat) : DF × Option DF :=
  if method = "drop" then (df, some (drop_duplicates (dropna df)))
  else if method = "mean" then
    let d := fillna_numeric df FillHow.mean
    (d, some (drop_duplicates d))
  else if method = "median" then
    let d := fillna_numeric df FillHow.median
    (d, some (drop_duplicates d))
  else if method = "zero" then
    let d := fillna_numeric df FillHow.zero
    (d, some (drop_duplicates d))
  else if method = "custom" then
    match custom_fill with
    | some c =>
      let d := fillna_numeric df (FillHow.const c)
      (d, some (drop_duplicates d))
    | none => (df, none)
  else (df, none)

/-- Linear-interpolation quantile over the non-missing values, as pandas
`Series.quantile` computes it: on the sorted values `s` of length `n`,
position `q * (n-1)` is split into integer part `i` and fraction `frac`,
and the result is `s[i] + frac * (s[i+1] - s[i])`; `none` when there are
no values (pandas yields NaN). Indices are clamped into range, which
changes nothing for `q` between 0 and 1. -/
def quantileLin (l : List Rat) (q : Rat) : Option Rat :=
  let s := List.insertionSort (· ≤ ·) l
  if s.length = 0 then none
  else
    let n := s.length
    let pos := q * ((n : Rat) - 1)
    let i := min pos.floor.toNat (n - 1)
    let k := min (i + 1) (n - 1)
    some (s.getD i 0 + (pos - ((pos.floor : Int) : Rat)) * (s.getD k 0 - s.getD i 0))

/-- Embedding of `detect_outliers(df, column)`: values of the column that
fall outside `[Q1 - 1.5*IQR, Q3 + 1.5*IQR]`. NaN cells are never flagged
(NaN comparisons are false in pandas), and an empty value set gives NaN
bounds, hence no outliers. -/
def detect_outliers (df : DF) (j : Nat) : List Rat :=
  let vals := colNums df j
  match quantileLin vals (1/4), quantileLin vals (3/4) with
  | some q1, some q3 =>
    let iqr := q3 - q1
    let lb := q1 - 3/2 * iqr
    let ub := q3 + 3/2 * iqr
    vals.filter (fun v => decide (v < lb) || decide (ub < v))
  | _, _ => []

/-- Decimal digit character for a value below 10. -/
def digitChar (d : Nat) : Char := Char.ofNat (48 + d)

/-- Decimal digit test on a character. -/
def isDigitChar (c : Char) : Bool := decide (48 ≤ c.toNat) && decide (c.toNat ≤ 57)

/-- Fuel-driven core of the decimal printer; the fuel is an upper bound on
the value, so it never runs out. -/
def printNatAux : Nat → Nat → List Char → List Char
  | 0, _, acc => acc
  | fuel + 1, n, acc =>
    if n = 0 then acc else printNatAux fuel (n / 10) (digitChar (n % 10) :: acc)

/-- Decimal representation of a natural number, as Python `str` prints it. -/
def printNat (n : Nat) : List Char :=
  if n = 0 then ['0'] else printNatAux n n []

/-- Decimal representation of an integer, as Python `str` prints it. -/
def printInt : Int → List Char
  | Int.ofNat n => printNat n
  | Int.negSucc m => '-' :: printNat (m + 1)

/-- Fractional digits of `r / d` by long division, cut off by fuel. Only
used by the fallback below. -/
def fracDigits : Nat → Nat → Nat → List Char
  | 0, _, _ => []
  | _ + 1, 0, _ => []
  | fuel + 1, r, d => digitChar (r * 10 / d) :: fracDigits fuel (r * 10 % d) d

/-- Decimal rendering of a non-integer rational. Binary float64 formatting
(what pandas actually writes for float columns) is outside the model; the
serialization theorems restrict numeric cells to integer values, so this
fallback is never hit by any theorem in this file. -/
def printDecimal (q : Rat) : List Char :=
  let sign : List Char := if q.num < 0 then ['-'] else []
  let a := q.num.natAbs
  sign ++ printNat (a / q.den) ++ '.' :: fracDigits 17 (a % q.den) q.den

/-- CSV text of a numeric cell: integers print like int64 cells under
`to_csv`; non-integers fall back to `printDecimal`. -/
def printRat (q : Rat) : List Char :=
  if q.den = 1 then printInt q.num else printDecimal q

/-- Numeric value of a digit character. -/
def digitVal (c : Char) : Nat := c.toNat - 48

/-- Value of a digit string, most significant first. -/
def digitsVal (cs : List Char) : Nat := cs.foldl (fun a c => 10 * a + digitVal c) 0

/-- Parse a nonempty all-digit string as a natural number. -/
def parseNatChars (cs : List Char) : Option Nat :=
  if !cs.isEmpty && cs.all isDigitChar then some (digitsVal cs) else none

/-- Parse an optionally negated digit string as an integer, the integer
fragment of the numeric grammar `read_csv` accepts. -/
def parseIntChars : List Char → Option Int
  | [] => none
  | c :: rest =>
    if c = '-' then (parseNatChars rest).map (fun n => -(n : Int))
    else (parseNatChars (c :: rest)).map (fun n => (n : Int))

/-- The default `na_values` of `read_csv`: these fields load as NaN. -/
def naTokens : List (List Char) :=
  (["", "#N/A", "#N/A N/A", "#NA", "-1.#IND", "-1.#QNAN", "-NaN", "-nan",
    "1.#IND", "1.#QNAN", "<NA>", "N/A", "NA", "NULL", "NaN", "None",
    "n/a", "nan", "null"]).map String.data

/-- Field recognized as missing by `read_csv`. -/
def isNAField (f : List Char) : Bool := decide (f ∈ naTokens)

/-- Characters that force `to_csv` to quote a field. -/
def specialChar (c : Char) : Bool := c == ',' || c == '"' || c == '\n' || c == '\r'

/-- Whether `to_csv` quotes this field (minimal quoting, the default). -/
def needsQuote (f : List Char) : Bool := f.any specialChar

/-- Double every quote inside a quoted field. -/
def escapeQuotes (f : List Char) : List Char :=
  f.foldr (fun c acc => if c = '"' then '"' :: '"' :: acc else c :: acc) []

/-- CSV field encoding with minimal quoting, as `to_csv` writes it. -/
def quoteField (f : List Char) : List Char :=
  if needsQuote f then '"' :: (escapeQuotes f ++ ['"']) else f

/-- Raw text of one cell in CSV output: numbers in decimal, strings
verbatim, missing cells empty. -/
def fieldOfCell : Cell → List Char
  | Cell.num q => printRat q
  | Cell.str s => s.data
  | Cell.na => []

/-- Interleave a separator between fields. -/
def joinSep (sep : Char) : List (List Char) → List Char
  | [] => []
  | [f] => f
  | f :: g :: rest => f ++ sep :: joinSep sep (g :: rest)

/-- One data line of `to_csv` output (without the terminating newline). -/
def renderRow (r : List Cell) : List Char :=
  joinSep ',' (r.map (fun c => quoteField (fieldOfCell c)))

/-- Embedding of `df.to_csv(output, index=False)`: a header line followed
by one newline-terminated line per row. -/
def to_csv (df : DF) : List Char :=
  joinSep ',' (df.header.map (fun s => quoteField s.data)) ++
    '\n' :: (df.rows.map (fun r => renderRow r ++ ['\n'])).flatten

/-- Result of `convert_df(df, format)`: CSV bytes, opaque xlsx bytes (the
xlsxwriter binary format is outside the model), or Python `None` for any
other format string (the function falls off the end). -/
inductive ExportResult
  | csvBytes (bs : List Char)
  | excelBytes
  | nothing
  deriving DecidableEq, Repr

/-- Embedding of `convert_df(df, format)` from `app.py`. -/
def convert_df (df : DF) (format : String) : ExportResult :=
  if format = "csv" then ExportResult.csvBytes (to_csv df)
  else if format = "excel" then ExportResult.excelBytes
  else ExportResult.nothing

/-- Split a character stream at every occurrence of `sep`; always returns
at least one (possibly empty) piece. -/
def splitOnChar (sep : Char) : List Char → List (List Char)
  | [] => [[]]
  | c :: rest =>
    match splitOnChar sep rest with
    | [] => [[c]]
    | a :: as => if c = sep then [] :: a :: as else (c :: a) :: as

/-- Whether a field is acceptable in a numeric column: missing, or parseable
as a number. The model's numeric grammar is the integer fragment. -/
def fieldNumOk (f : List Char) : Bool := isNAField f || (parseIntChars f).isSome

/-- Turn one CSV field into a cell given the column's inferred kind. -/
def mkCell (isNum : Bool) (f : List Char) : Cell :=
  if isNAField f then Cell.na
  else if isNum then
    match parseIntChars f with
    | some n => Cell.num (n : Rat)
    | none => Cell.str (String.mk f)
  else Cell.str (String.mk f)

/-- Embedding of `pd.read_csv` on the fragment of CSV this pipeline emits:
split into lines (skipping blank lines, the default `skip_blank_lines`),
take the first line as header, require rectangular data, and infer each
column as numeric exactly when every field is missing or parses as a
number. Quoted fields and non-integer numeric grammar are outside the
model; the serialization theorems restrict to fields where this agrees
with pandas. Returns `none` (a parse error) on empty input or ragged
rows. -/
def read_csv (cs : List Char) : Option DF :=
  match (splitOnChar '\n' cs).filter (fun l => !l.isEmpty) with
  | [] => none
  | hline :: dlines =>
    if (dlines.map (splitOnChar ',')).all
        (fun r => r.length == (splitOnChar ',' hline).length) then
      some { header := (splitOnChar ',' hline).map String.mk,
             dtypes := ((List.range (splitOnChar ',' hline).length).map (fun j =>
               (dlines.map (splitOnChar ',')).all
                 (fun r2 => fieldNumOk (r2.getD j [])))).map
               (fun b => if b then Dtype.numeric else Dtype.text),
             rows := (dlines.map (splitOnChar ',')).map (fun r => List.zipWith mkCell
               ((List.range (splitOnChar ',' hline).length).map (fun j =>
                 (dlines.map (splitOnChar ',')).all
                   (fun r2 => fieldNumOk (r2.getD j [])))) r) }
    else none

/-- Result of `load_data(file)`: the csv branch parses the bytes with
`read_csv`; every other filename goes to `pd.read_excel`, whose binary
parsing is outside the model. -/
inductive LoadResult
  | csv (t : Option DF)
  | excelAttempt
  deriving DecidableEq, Repr

/-- Embedding of `load_data(file)` from `app.py`: dispatch on whether the
filename ends in `.csv`; there is no extension validation — any other
name is handed to the Excel parser. -/
def load_data (content : List Char) (name : String) : LoadResult :=
  if (".csv".data).isSuffixOf name.data then LoadResult.csv (read_csv content)
  else LoadResult.excelAttempt

/-- Rows surviving dedup come from the input. -/
theorem dedupAux_sub {x : List Cell} :
    ∀ {seen l : List (List Cell)}, x ∈ dedupAux seen l → x ∈ l := by
  intro seen l
  induction l generalizing seen with
  | nil => intro h; exact absurd h (List.not_mem_nil x)
  | cons r rest ih =>
    intro h
    by_cases hr : r ∈ seen
    · simp only [dedupAux, if_pos hr] at h
      exact List.mem_cons_of_mem r (ih h)
    · simp only [dedupAux, if_neg hr, List.mem_cons] at h
      rcases h with h | h
      · exact h ▸ List.mem_cons_self r rest
      · exact List.mem_cons_of_mem r (ih h)

/-- Dedup never lengthens the row list. -/
theorem dedupAux_length :
    ∀ (seen l : List (List Cell)), (dedupAux seen l).length ≤ l.length := by
  intro seen l
  induction l generalizing seen with
  | nil => simp [dedupAux]
  | cons r rest ih =>
    by_cases hr : r ∈ seen
    · simp only [dedupAux, if_pos hr]
      exact Nat.le_succ_of_le (ih seen)
    · simp only [dedupAux, if_neg hr, List.length_cons]
      exact Nat.succ_le_succ (ih (r :: seen))

/-- Rows surviving dedup were not among the already-seen rows. -/
theorem dedupAux_not_seen {x : List Cell} :
    ∀ {seen l : List (List Cell)}, x ∈ dedupAux seen l → x ∉ seen := by
  intro seen l
  induction l generalizing seen with
  | nil => intro h; exact absurd h (List.not_mem_nil x)
  | cons r rest ih =>
    intro h
    by_cases hr : r ∈ seen
    · exact ih (by simpa only [dedupAux, if_pos hr] using h)
    · simp only [dedupAux, if_neg hr, List.mem_cons] at h
      rcases h with h | h
      · exact h ▸ hr
      · intro hx; exact (ih h) (List.mem_cons_of_mem r hx)

/-- Dedup output has no duplicate rows. -/
theorem dedupAux_nodup :
    ∀ (seen l : List (List Cell)), (dedupAux seen l).Nodup := by
  intro seen l
  induction l generalizing seen with
  | nil => simp [dedupAux]
  | cons r rest ih =>
    by_cases hr : r ∈ seen
    · simpa only [dedupAux, if_pos hr] using ih seen
    · simp only [dedupAux, if_neg hr]
      refine List.nodup_cons.mpr ⟨?_, ih (r :: seen)⟩
      intro hmem
      exact (dedupAux_not_seen hmem) (List.mem_cons_self r seen)

/-- Dedup is the identity on duplicate-free inputs disjoint from `seen`. -/
theorem dedupAux_eq_self :
    ∀ {l seen : List (List Cell)}, l.Nodup → (∀ x ∈ l, x ∉ seen) → dedupAux seen l = l := by
  intro l
  induction l with
  | nil => intro seen _ _; rfl
  | cons r rest ih =>
    intro seen hnd hdisj
    have hr : r ∉ seen := hdisj r (List.mem_cons_self r rest)
    simp only [dedupAux, if_neg hr]
    have hnd' := List.nodup_cons.mp hnd
    refine congrArg (r :: ·) (ih hnd'.2 ?_)
    intro x hx
    simp only [List.mem_cons, not_or]
    exact ⟨fun e => hnd'.1 (e ▸ hx), hdisj x (List.mem_cons_of_mem r hx)⟩

/-- Dedup from an empty seen set is idempotent. -/
theorem dedup_rows_idem (l : List (List Cell)) :
    dedupAux [] (dedupAux [] l) = dedupAux [] l :=
  dedupAux_eq_self (dedupAux_nodup [] l) (fun x _ => List.not_mem_nil x)

/-- Applying `drop_duplicates` twice equals applying it once. -/
theorem drop_duplicates_idem (df : DF) :
    drop_duplicates (drop_duplicates df) = drop_duplicates df := by
  simp [drop_duplicates, dedup_rows_idem]

/-- C10: calling `clean_data` with an unrecognized method name, or with the
custom method but no fill constant, returns no table at all (the Python
function falls past every branch and returns `None`). -/
theorem C10_invalid_method_returns_none (df : DF) (method : String) (c : Option Rat)
    (h : method ∉ ["drop", "mean", "median", "zero", "custom"] ∨
      (method = "custom" ∧ c = none)) :
    (clean_data df method c).2 = none := by
  rcases h with h | ⟨hm, hc⟩
  · simp only [List.mem_cons, List.not_mem_nil, or_false, not_or] at h
    obtain ⟨h1, h2, h3, h4, h5⟩ := h
    simp [clean_data, h1, h2, h3, h4, h5]
  · subst hm; subst hc
    simp [clean_data]

theorem C10_invalid_method_returns_none_witness :
    ("fillna" ∉ ["drop", "mean", "median", "zero", "custom"] ∨
      ("fillna" = "custom" ∧ (none : Option Rat) = none)) ∧
    (clean_data { header := ["a"], dtypes := [Dtype.text], rows := [] } "fillna" none).2 = none :=
  ⟨by decide, C10_invalid_method_returns_none _ "fillna" none (by decide)⟩

/-- C4: cleaning with the drop strategy never increases the row count, and
no surviving row contains a missing value in any column. -/
theorem C4_drop_bounds_and_no_missing (df : DF) (c : Option Rat) :
    ∃ out, (clean_data df "drop" c).2 = some out ∧
      out.rows.length ≤ df.rows.length ∧
      ∀ r ∈ out.rows, ∀ cell ∈ r, cell ≠ Cell.na := by
  refine ⟨drop_duplicates (dropna df), by simp [clean_data], ?_, ?_⟩
  · calc (drop_duplicates (dropna df)).rows.length
        ≤ (dropna df).rows.length := dedupAux_length [] (dropna df).rows
      _ ≤ df.rows.length := List.length_filter_le _ df.rows
  · intro r hr cell hc
    have hmem : r ∈ (dropna df).rows := dedupAux_sub hr
    have hall := List.of_mem_filter hmem
    have := List.all_eq_true.mp hall cell hc
    simpa using this

/-- C7: every table returned by `clean_data` is already duplicate-free, so
running duplicate removal on it again returns it unchanged. -/
theorem C7_dedup_idempotent (df : DF) (method : String) (c : Option Rat) (out : DF)
    (h : (clean_data df method c).2 = some out) :
    drop_duplicates out = out := by
  obtain ⟨d, rfl⟩ : ∃ d, out = drop_duplicates d := by
    cases c with
    | none =>
      unfold clean_data at h
      split_ifs at h <;> exact ⟨_, (Option.some.inj h).symm⟩
    | some v =>
      unfold clean_data at h
      split_ifs at h <;> exact ⟨_, (Option.some.inj h).symm⟩
  exact drop_duplicates_idem d

theorem C7_dedup_idempotent_witness :
    (clean_data (DF.mk ["a"] [Dtype.text] [[Cell.str "x"], [Cell.str "x"]]) "drop" none).2 =
      some (DF.mk ["a"] [Dtype.text] [[Cell.str "x"]]) ∧
    drop_duplicates (DF.mk ["a"] [Dtype.text] [[Cell.str "x"]]) =
      DF.mk ["a"] [Dtype.text] [[Cell.str "x"]] :=
  ⟨by decide, C7_dedup_idempotent (DF.mk ["a"] [Dtype.text] [[Cell.str "x"], [Cell.str "x"]])
    "drop" none (DF.mk ["a"] [Dtype.text] [[Cell.str "x"]]) (by decide)⟩

unseal Rat.add Rat.mul Rat.inv in
/-- C3: the claim that cleaning never mutates its input is right about the
intended design but wrong about the code: the fill branches assign
`df[numeric_cols] = df[numeric_cols].fillna(...)` into the caller's frame.
On a one-column frame `[NaN, 1]`, after `clean_data(df, "mean")` the
caller's frame holds `[1, 1]`, not its original cells. -/
theorem C3_fill_mutates_input :
    (clean_data (DF.mk ["a"] [Dtype.numeric] [[Cell.na], [Cell.num 1]]) "mean" none).1 ≠
      DF.mk ["a"] [Dtype.numeric] [[Cell.na], [Cell.num 1]] ∧
    (clean_data (DF.mk ["a"] [Dtype.numeric] [[Cell.na], [Cell.num 1]]) "mean" none).1 =
      DF.mk ["a"] [Dtype.numeric] [[Cell.num 1], [Cell.num 1]] := by
  constructor
  · decide
  · decide

/-- C9 counterexample: a filename with an unsupported extension is not
rejected; `load_data` hands the bytes to the Excel parser. -/
theorem C9_non_csv_attempts_excel :
    load_data [] "data.txt" = LoadResult.excelAttempt := by decide

/-- C9 amended: for every filename that does not end in `.csv`, `load_data`
dispatches to `pd.read_excel` and attempts to parse the bytes; no
UnsupportedFormat error exists in the code (the upload widget, not the
loader, restricts selectable extensions). -/
theorem C9_load_dispatch (content : List Char) (name : String)
    (h : (".csv".data).isSuffixOf name.data = false) :
    load_data content name = LoadResult.excelAttempt := by
  simp [load_data, h]

theorem C9_load_dispatch_witness :
    (".csv".data).isSuffixOf "notes.md".data = false ∧
    load_data ['a'] "notes.md" = LoadResult.excelAttempt :=
  ⟨by decide, C9_load_dispatch ['a'] "notes.md" (by decide)⟩

/-- Length of the per-column fill list. -/
theorem fillsFor_length (df : DF) (how : FillHow) :
    (fillsFor df how).length = df.dtypes.length := by
  simp [fillsFor]

/-- Entry `j` of the per-column fill list. -/
theorem fillsFor_getElem (df : DF) (how : FillHow) (j : Nat)
    (hj : j < (fillsFor df how).length) :
    (fillsFor df how)[j] =
      if df.dtypes.getD j Dtype.text = Dtype.numeric then fillValue df how j else none := by
  simp [fillsFor]

/-- The mean exists whenever there is at least one value. -/
theorem meanOf_isSome (l : List Rat) (h : l ≠ []) : (meanOf l).isSome = true := by
  cases l with
  | nil => exact absurd rfl h
  | cons a as => simp [meanOf]

/-- The median exists whenever there is at least one value. -/
theorem medianOf_isSome (l : List Rat) (h : l ≠ []) : (medianOf l).isSome = true := by
  have hs : (List.insertionSort (· ≤ ·) l).length = l.length :=
    (List.perm_insertionSort (· ≤ ·) l).length_eq
  have hne : (List.insertionSort (· ≤ ·) l).isEmpty = false := by
    cases hsl : List.insertionSort (· ≤ ·) l with
    | nil => rw [hsl] at hs; exact absurd (List.length_eq_zero.mp hs.symm) h
    | cons b bs => rfl
  simp only [medianOf, hne, Bool.false_eq_true, if_false]
  split <;> rfl

/-- After filling, a numeric column with an available fill value has no
missing cell at any row. -/
theorem fill_cell_ne_na (df : DF) (how : FillHow) (r0 : List Cell) (j : Nat)
    (hlen : r0.length = df.dtypes.length) (hj : j < df.dtypes.length)
    (hnum : df.dtypes.getD j Dtype.text = Dtype.numeric)
    (hfv : (fillValue df how j).isSome = true) :
    (List.zipWith fillCell (fillsFor df how) r0).getD j Cell.na ≠ Cell.na := by
  have hlz : j < (List.zipWith fillCell (fillsFor df how) r0).length := by
    rw [List.length_zipWith, fillsFor_length, hlen]
    exact Nat.lt_min.mpr ⟨hj, hj⟩
  rw [List.getD_eq_getElem _ _ hlz, List.getElem_zipWith]
  have hjf : j < (fillsFor df how).length := by rw [fillsFor_length]; exact hj
  rw [fillsFor_getElem df how j hjf, if_pos hnum]
  obtain ⟨v, hv⟩ := Option.isSome_iff_exists.mp hfv
  rw [hv]
  have hjr : j < r0.length := by rw [hlen]; exact hj
  cases r0[j] <;> simp [fillCell]

/-- C2 counterexample: a numeric column that is entirely missing stays
entirely missing under `fillna(mean)` — the mean of no values is NaN and
`fillna(NaN)` fills nothing — so the cleaned table still has a missing
value in a numeric column. -/
theorem C2_all_missing_column_stays_missing :
    (clean_data (DF.mk ["a"] [Dtype.numeric] [[Cell.na]]) "mean" none).2 =
      some (DF.mk ["a"] [Dtype.numeric] [[Cell.na]]) := by decide

/-- C2 amended: cleaning with a numeric fill policy keeps the header (so
never reduces the column count), and after cleaning every numeric column
has no missing cell at any surviving row, provided the column had at
least one non-missing value, or the policy was fill-with-zero or
fill-with-constant (whose fill values always exist). -/
theorem C2_fill_keeps_columns_and_fills (df : DF) (method : String) (c : Option Rat)
    (hwf : ∀ r ∈ df.rows, r.length = df.dtypes.length)
    (hm : method = "mean" ∨ method = "median" ∨ method = "zero" ∨
      (method = "custom" ∧ c.isSome = true)) :
    ∃ out, (clean_data df method c).2 = some out ∧
      out.header = df.header ∧ out.dtypes = df.dtypes ∧
      ∀ r ∈ out.rows, ∀ j, j < df.dtypes.length →
        df.dtypes.getD j Dtype.text = Dtype.numeric →
        (colNums df j ≠ [] ∨ method = "zero" ∨ method = "custom") →
        r.getD j Cell.na ≠ Cell.na := by
  have main : ∀ how : FillHow, (∀ j, j < df.dtypes.length →
        df.dtypes.getD j Dtype.text = Dtype.numeric → colNums df j ≠ [] →
        (fillValue df how j).isSome = true) →
      (∀ j, (fillValue df FillHow.zero j).isSome = true) →
      ∀ r ∈ (drop_duplicates (fillna_numeric df how)).rows, ∀ j, j < df.dtypes.length →
        df.dtypes.getD j Dtype.text = Dtype.numeric → colNums df j ≠ [] →
        r.getD j Cell.na ≠ Cell.na := by
    intro how hsome _ r hr j hj hnum hne
    have hr1 : r ∈ (fillna_numeric df how).rows := dedupAux_sub hr
    obtain ⟨r0, hr0, rfl⟩ := List.mem_map.mp hr1
    exact fill_cell_ne_na df how r0 j (hwf r0 hr0) hj hnum (hsome j hj hnum hne)
  have mainAll : ∀ how : FillHow, (∀ j, (fillValue df how j).isSome = true) →
      ∀ r ∈ (drop_duplicates (fillna_numeric df how)).rows, ∀ j, j < df.dtypes.length →
        df.dtypes.getD j Dtype.text = Dtype.numeric →
        r.getD j Cell.na ≠ Cell.na := by
    intro how hsome r hr j hj hnum
    have hr1 : r ∈ (fillna_numeric df how).rows := dedupAux_sub hr
    obtain ⟨r0, hr0, rfl⟩ := List.mem_map.mp hr1
    exact fill_cell_ne_na df how r0 j (hwf r0 hr0) hj hnum (hsome j)
  rcases hm with hm | hm | hm | ⟨hm, hc⟩
  · subst hm
    refine ⟨drop_duplicates (fillna_numeric df FillHow.mean), by simp [clean_data],
      rfl, rfl, ?_⟩
    intro r hr j hj hnum hcol
    have hne : colNums df j ≠ [] := by
      rcases hcol with hne | hz | hz
      · exact hne
      · exact absurd hz (by decide)
      · exact absurd hz (by decide)
    exact main FillHow.mean
      (fun j _ _ hne => meanOf_isSome _ hne) (fun _ => rfl) r hr j hj hnum hne
  · subst hm
    refine ⟨drop_duplicates (fillna_numeric df FillHow.median), by simp [clean_data],
      rfl, rfl, ?_⟩
    intro r hr j hj hnum hcol
    have hne : colNums df j ≠ [] := by
      rcases hcol with hne | hz | hz
      · exact hne
      · exact absurd hz (by decide)
      · exact absurd hz (by decide)
    exact main FillHow.median
      (fun j _ _ hne => medianOf_isSome _ hne) (fun _ => rfl) r hr j hj hnum hne
  · subst hm
    refine ⟨drop_duplicates (fillna_numeric df FillHow.zero), by simp [clean_data],
      rfl, rfl, ?_⟩
    intro r hr j hj hnum _
    exact mainAll FillHow.zero (fun _ => rfl) r hr j hj hnum
  · subst hm
    obtain ⟨v, hv⟩ := Option.isSome_iff_exists.mp hc
    subst hv
    refine ⟨drop_duplicates (fillna_numeric df (FillHow.const v)), by simp [clean_data],
      rfl, rfl, ?_⟩
    intro r hr j hj hnum _
    exact mainAll (FillHow.const v) (fun _ => rfl) r hr j hj hnum

theorem C2_fill_keeps_columns_and_fills_witness :
    (∀ r ∈ (DF.mk ["a"] [Dtype.numeric] [[Cell.na]]).rows,
      r.length = (DF.mk ["a"] [Dtype.numeric] [[Cell.na]]).dtypes.length) ∧
    (∃ out, (clean_data (DF.mk ["a"] [Dtype.numeric] [[Cell.na]]) "zero" none).2 = some out ∧
      out.header = (DF.mk ["a"] [Dtype.numeric] [[Cell.na]]).header ∧
      out.dtypes = (DF.mk ["a"] [Dtype.numeric] [[Cell.na]]).dtypes ∧
      ∀ r ∈ out.rows, ∀ j, j < (DF.mk ["a"] [Dtype.numeric] [[Cell.na]]).dtypes.length →
        (DF.mk ["a"] [Dtype.numeric] [[Cell.na]]).dtypes.getD j Dtype.text = Dtype.numeric →
        (colNums (DF.mk ["a"] [Dtype.numeric] [[Cell.na]]) j ≠ [] ∨ "zero" = "zero" ∨
          "zero" = "custom") →
        r.getD j Cell.na ≠ Cell.na) :=
  ⟨by decide, C2_fill_keeps_columns_and_fills (DF.mk ["a"] [Dtype.numeric] [[Cell.na]])
    "zero" none (by decide) (by simp)⟩

/-- Mapping a function that fixes every member is the identity. -/
theorem map_eq_self_of_mem {α : Type} (l : List α) (f : α → α)
    (h : ∀ a ∈ l, f a = a) : l.map f = l := by
  induction l with
  | nil => rfl
  | cons a as ih =>
    simp only [List.map_cons, h a (List.mem_cons_self a as)]
    exact congrArg (a :: ·) (ih (fun b hb => h b (List.mem_cons_of_mem a hb)))

/-- A missing fill value leaves any cell unchanged. -/
theorem fillCell_none (c : Cell) : fillCell none c = c := by
  cases c <;> rfl

/-- Zipping with all-absent fill values is the identity on a row of equal
length. -/
theorem zipWith_fillCell_none :
    ∀ (fills : List (Option Rat)) (r : List Cell), (∀ o ∈ fills, o = none) →
      fills.length = r.length → List.zipWith fillCell fills r = r := by
  intro fills
  induction fills with
  | nil =>
    intro r _ hlen
    cases r with
    | nil => rfl
    | cons a as => exact absurd hlen (by simp)
  | cons o os ih =>
    intro r hall hlen
    cases r with
    | nil => exact absurd hlen (by simp)
    | cons a as =>
      have ho : o = none := hall o (List.mem_cons_self o os)
      simp only [List.zipWith_cons_cons, ho, fillCell_none]
      refine congrArg (a :: ·) (ih as ?_ (by simpa using hlen))
      intro b hb
      exact hall b (List.mem_cons_of_mem o hb)

/-- With no numeric column every per-column fill value is absent. -/
theorem fillsFor_all_none (df : DF) (how : FillHow)
    (hdt : ∀ dt ∈ df.dtypes, dt = Dtype.text) :
    ∀ o ∈ fillsFor df how, o = none := by
  intro o ho
  obtain ⟨j, hj, rfl⟩ := List.mem_map.mp ho
  have hjlt : j < df.dtypes.length := List.mem_range.mp hj
  have : df.dtypes.getD j Dtype.text = Dtype.text := by
    rw [List.getD_eq_getElem _ _ hjlt]
    exact hdt _ (List.getElem_mem _)
  rw [this]
  simp

/-- With no numeric column the in-place fill is a no-op on the frame. -/
theorem fillna_numeric_noop (df : DF) (how : FillHow)
    (hdt : ∀ dt ∈ df.dtypes, dt = Dtype.text)
    (hwf : ∀ r ∈ df.rows, r.length = df.dtypes.length) :
    fillna_numeric df how = df := by
  have hrows : df.rows.map (fun r => List.zipWith fillCell (fillsFor df how) r) = df.rows := by
    refine map_eq_self_of_mem _ _ ?_
    intro r hr
    exact zipWith_fillCell_none _ r (fillsFor_all_none df how hdt)
      ((fillsFor_length df how).trans (hwf r hr).symm)
  unfold fillna_numeric
  rw [hrows]

/-- C5: on a table with zero numeric columns, every numeric fill strategy
leaves every cell unchanged (no error is raised: the Python code assigns
an empty column selection, a no-op) and duplicate removal still runs. -/
theorem C5_fill_without_numeric_columns_is_noop (df : DF) (method : String) (c : Option Rat)
    (hdt : ∀ dt ∈ df.dtypes, dt = Dtype.text)
    (hwf : ∀ r ∈ df.rows, r.length = df.dtypes.length)
    (hm : method = "mean" ∨ method = "median" ∨ method = "zero" ∨
      (method = "custom" ∧ c.isSome = true)) :
    clean_data df method c = (df, some (drop_duplicates df)) := by
  have hfill : ∀ how, fillna_numeric df how = df :=
    fun how => fillna_numeric_noop df how hdt hwf
  rcases hm with hm | hm | hm | ⟨hm, hc⟩
  · subst hm; simp [clean_data, hfill]
  · subst hm; simp [clean_data, hfill]
  · subst hm; simp [clean_data, hfill]
  · subst hm
    obtain ⟨v, hv⟩ := Option.isSome_iff_exists.mp hc
    subst hv
    simp [clean_data, hfill]

theorem C5_fill_without_numeric_columns_is_noop_witness :
    (∀ dt ∈ (DF.mk ["a"] [Dtype.text] [[Cell.str "u"], [Cell.str "u"]]).dtypes,
      dt = Dtype.text) ∧
    clean_data (DF.mk ["a"] [Dtype.text] [[Cell.str "u"], [Cell.str "u"]]) "mean" none =
      (DF.mk ["a"] [Dtype.text] [[Cell.str "u"], [Cell.str "u"]],
        some (drop_duplicates (DF.mk ["a"] [Dtype.text] [[Cell.str "u"], [Cell.str "u"]]))) :=
  ⟨by decide, C5_fill_without_numeric_columns_is_noop
    (DF.mk ["a"] [Dtype.text] [[Cell.str "u"], [Cell.str "u"]]) "mean" none
    (by decide) (by decide) (by simp)⟩

/-- C8: on an empty table (0 rows, any defined columns) every cleaning
step is the identity: the caller's frame is untouched and the returned
table is the same empty table; outlier detection on any column also
returns nothing. -/
theorem C8_empty_table_identity (df : DF) (method : String) (c : Option Rat)
    (hrows : df.rows = [])
    (hm : method = "drop" ∨ method = "mean" ∨ method = "median" ∨ method = "zero" ∨
      (method = "custom" ∧ c.isSome = true)) :
    clean_data df method c = (df, some df) ∧ ∀ j, detect_outliers df j = [] := by
  obtain ⟨hd, dts, rws⟩ := df
  simp only at hrows
  subst hrows
  constructor
  · have hfill : ∀ how, fillna_numeric (DF.mk hd dts []) how = DF.mk hd dts [] := by
      intro how; simp [fillna_numeric]
    have hdedup : drop_duplicates (DF.mk hd dts []) = DF.mk hd dts [] := by
      simp [drop_duplicates, dedupAux]
    have hdrop : dropna (DF.mk hd dts []) = DF.mk hd dts [] := by
      simp [dropna]
    rcases hm with hm | hm | hm | hm | ⟨hm, hc⟩
    · subst hm; simp [clean_data, hdrop, hdedup]
    · subst hm; simp [clean_data, hfill, hdedup]
    · subst hm; simp [clean_data, hfill, hdedup]
    · subst hm; simp [clean_data, hfill, hdedup]
    · subst hm
      obtain ⟨v, hv⟩ := Option.isSome_iff_exists.mp hc
      subst hv
      simp [clean_data, hfill, hdedup]
  · intro j
    simp [detect_outliers, colNums, colCells, quantileLin]

theorem C8_empty_table_identity_witness :
    (DF.mk ["a", "b"] [Dtype.numeric, Dtype.text] []).rows = [] ∧
    (clean_data (DF.mk ["a", "b"] [Dtype.numeric, Dtype.text] []) "mean" none =
      (DF.mk ["a", "b"] [Dtype.numeric, Dtype.text] [],
        some (DF.mk ["a", "b"] [Dtype.numeric, Dtype.text] [])) ∧
      ∀ j, detect_outliers (DF.mk ["a", "b"] [Dtype.numeric, Dtype.text] []) j = []) :=
  ⟨by decide, C8_empty_table_identity (DF.mk ["a", "b"] [Dtype.numeric, Dtype.text] [])
    "mean" none (by decide) (by simp)⟩

/-- In a list whose members are all `c`, every in-range `getD` is `c`. -/
theorem getD_eq_of_all_eq {l : List Rat} {c : Rat} (h : ∀ v ∈ l, v = c)
    (k : Nat) (hk : k < l.length) : l.getD k 0 = c := by
  rw [List.getD_eq_getElem _ _ hk]
  exact h _ (List.getElem_mem _)

/-- Every linear-interpolation quantile of a nonempty constant list is the
constant. -/
theorem quantile_const (l : List Rat) (c : Rat) (hc : ∀ v ∈ l, v = c)
    (hne : l ≠ []) (q : Rat) : quantileLin l q = some c := by
  have hperm := List.perm_insertionSort (· ≤ ·) l
  have hcs : ∀ v ∈ List.insertionSort (· ≤ ·) l, v = c :=
    fun v hv => hc v (hperm.subset hv)
  have hn : (List.insertionSort (· ≤ ·) l).length ≠ 0 := by
    rw [hperm.length_eq]
    exact fun h0 => hne (List.length_eq_zero.mp h0)
  have hpos : 0 < (List.insertionSort (· ≤ ·) l).length := Nat.pos_of_ne_zero hn
  simp only [quantileLin, if_neg hn]
  have hi : min (Rat.floor (q * (((List.insertionSort (· ≤ ·) l).length : Rat) - 1))).toNat
      ((List.insertionSort (· ≤ ·) l).length - 1) < (List.insertionSort (· ≤ ·) l).length :=
    lt_of_le_of_lt (min_le_right _ _) (Nat.sub_lt hpos Nat.one_pos)
  have hk : min (min (Rat.floor (q * (((List.insertionSort (· ≤ ·) l).length : Rat) - 1))).toNat
        ((List.insertionSort (· ≤ ·) l).length - 1) + 1)
      ((List.insertionSort (· ≤ ·) l).length - 1) < (List.insertionSort (· ≤ ·) l).length :=
    lt_of_le_of_lt (min_le_right _ _) (Nat.sub_lt hpos Nat.one_pos)
  rw [getD_eq_of_all_eq hcs _ hi, getD_eq_of_all_eq hcs _ hk]
  exact congrArg some (by ring)

/-- C6: the IQR outlier rule flags no value of a constant numeric column:
both quartiles equal the constant, the IQR is zero, and every value lies
inside the collapsed bounds. -/
theorem C6_constant_column_no_outliers (df : DF) (j : Nat) (c : Rat)
    (h : ∀ v ∈ colNums df j, v = c) : detect_outliers df j = [] := by
  by_cases hne : colNums df j = []
  · simp [detect_outliers, hne, quantileLin]
  · have h14 := quantile_const _ c h hne (1/4)
    have h34 := quantile_const _ c h hne (3/4)
    simp only [detect_outliers, h14, h34]
    refine List.filter_eq_nil_iff.mpr ?_
    intro v hv
    have hvc : v = c := h v hv
    subst hvc
    have e1 : v - 3/2 * (v - v) = v := by ring
    have e2 : v + 3/2 * (v - v) = v := by ring
    rw [e1, e2]
    simp [lt_irrefl]

theorem C6_constant_column_no_outliers_witness :
    (∀ v ∈ colNums (DF.mk ["a"] [Dtype.numeric]
        [[Cell.num 5], [Cell.num 5], [Cell.num 5]]) 0, v = 5) ∧
    detect_outliers (DF.mk ["a"] [Dtype.numeric]
        [[Cell.num 5], [Cell.num 5], [Cell.num 5]]) 0 = [] :=
  ⟨by decide, C6_constant_column_no_outliers
    (DF.mk ["a"] [Dtype.numeric] [[Cell.num 5], [Cell.num 5], [Cell.num 5]]) 0 5 (by decide)⟩

/-- The printer core is inert on zero. -/
theorem printNatAux_zero (fuel : Nat) (acc : List Char) :
    printNatAux fuel 0 acc = acc := by
  cases fuel <;> simp [printNatAux]

/-- The printer core only prepends to its accumulator. -/
theorem printNatAux_acc (fuel : Nat) :
    ∀ (n : Nat) (acc : List Char),
      printNatAux fuel n acc = printNatAux fuel n [] ++ acc := by
  induction fuel with
  | zero => intro n acc; simp [printNatAux]
  | succ f ih =>
    intro n acc
    by_cases hn : n = 0
    · simp [printNatAux, hn]
    · simp only [printNatAux, if_neg hn]
      rw [ih (n / 10) (digitChar (n % 10) :: acc), ih (n / 10) [digitChar (n % 10)]]
      simp

/-- Digit characters are digits. -/
theorem isDigitChar_digitChar (d : Nat) (hd : d < 10) :
    isDigitChar (digitChar d) = true := by
  interval_cases d <;> decide

/-- Every character the printer core emits is a digit (given a digit
accumulator). -/
theorem printNatAux_digits (fuel : Nat) :
    ∀ (n : Nat) (acc : List Char), (∀ ch ∈ acc, isDigitChar ch = true) →
      ∀ ch ∈ printNatAux fuel n acc, isDigitChar ch = true := by
  induction fuel with
  | zero => intro n acc hacc; exact hacc
  | succ f ih =>
    intro n acc hacc
    by_cases hn : n = 0
    · simpa [printNatAux, hn] using hacc
    · simp only [printNatAux, if_neg hn]
      refine ih (n / 10) (digitChar (n % 10) :: acc) ?_
      intro ch hch
      rcases List.mem_cons.mp hch with h | h
      · exact h ▸ isDigitChar_digitChar _ (Nat.mod_lt n (by norm_num))
      · exact hacc ch h

/-- Every character of a printed natural number is a digit. -/
theorem printNat_digits (n : Nat) : ∀ ch ∈ printNat n, isDigitChar ch = true := by
  by_cases hn : n = 0
  · subst hn; intro ch hch; simp [printNat] at hch; subst hch; decide
  · simp only [printNat, if_neg hn]
    exact printNatAux_digits n n [] (by intro ch h; exact absurd h (List.not_mem_nil ch))

/-- A printed natural number is never the empty string. -/
theorem printNat_ne_nil (n : Nat) : printNat n ≠ [] := by
  by_cases hn : n = 0
  · simp [printNat, hn]
  · simp only [printNat, if_neg hn]
    obtain ⟨m, rfl⟩ := Nat.exists_eq_succ_of_ne_zero hn
    simp only [printNatAux, if_neg hn]
    rw [printNatAux_acc]
    simp

/-- Value of a digit character. -/
theorem digitVal_digitChar (d : Nat) (hd : d < 10) : digitVal (digitChar d) = d := by
  interval_cases d <;> decide

/-- Appending one digit multiplies the value by ten and adds the digit. -/
theorem digitsVal_append (xs : List Char) (d : Char) :
    digitsVal (xs ++ [d]) = 10 * digitsVal xs + digitVal d := by
  simp [digitsVal, List.foldl_append]

/-- The printer core followed by the evaluator is the identity on positive
numbers within fuel. -/
theorem digitsVal_printNatAux (fuel : Nat) :
    ∀ n, n ≤ fuel → n ≠ 0 → digitsVal (printNatAux fuel n []) = n := by
  induction fuel with
  | zero => intro n hle hn; omega
  | succ f ih =>
    intro n hle hn
    simp only [printNatAux, if_neg hn]
    by_cases h10 : n / 10 = 0
    · rw [h10, printNatAux_zero]
      have hlt : n < 10 := by omega
      have : digitsVal [digitChar (n % 10)] = digitVal (digitChar (n % 10)) := by
        simp [digitsVal]
      rw [this, digitVal_digitChar _ (Nat.mod_lt n (by norm_num))]
      omega
    · rw [printNatAux_acc, digitsVal_append,
        ih (n / 10) (by omega) h10,
        digitVal_digitChar _ (Nat.mod_lt n (by norm_num))]
      omega

/-- Evaluating the printed digits of a natural number gives it back. -/
theorem digitsVal_printNat (n : Nat) : digitsVal (printNat n) = n := by
  by_cases hn : n = 0
  · subst hn; decide
  · simp only [printNat, if_neg hn]
    exact digitsVal_printNatAux n n (Nat.le_refl n) hn

/-- Parsing the printed form of a natural number gives it back. -/
theorem parseNatChars_printNat (n : Nat) : parseNatChars (printNat n) = some n := by
  have hne : (printNat n).isEmpty = false := by
    cases hpn : printNat n with
    | nil => exact absurd hpn (printNat_ne_nil n)
    | cons c cs => rfl
  have hall : (printNat n).all isDigitChar = true :=
    List.all_eq_true.mpr (printNat_digits n)
  simp [parseNatChars, hne, hall, digitsVal_printNat]

/-- Parsing the printed form of an integer gives it back. -/
theorem parseIntChars_printInt (m : Int) : parseIntChars (printInt m) = some m := by
  cases m with
  | ofNat n =>
    simp only [printInt]
    cases hpn : printNat n with
    | nil => exact absurd hpn (printNat_ne_nil n)
    | cons c cs =>
      have hc : isDigitChar c = true := printNat_digits n c (hpn ▸ List.mem_cons_self c cs)
      have hcne : c ≠ '-' := by
        intro e; rw [e] at hc; exact absurd hc (by decide)
      simp only [parseIntChars, if_neg hcne, ← hpn, parseNatChars_printNat]
      rfl
  | negSucc k =>
    simp only [printInt, parseIntChars, if_pos rfl, parseNatChars_printNat]
    simp [Int.negSucc_eq]

/-- Characters that can occur in the numeric grammars `read_csv` tries
(sign, decimal point, exponent, surrounding blanks). -/
def numericExtra (c : Char) : Bool :=
  c == '+' || c == '-' || c == '.' || c == 'e' || c == 'E' || c == ' '

/-- Conservative test for fields pandas might convert to a number: at least
one digit, and nothing but digits and numeric punctuation. -/
def looksNumericLike (f : List Char) : Bool :=
  f.any isDigitChar && f.all (fun c => isDigitChar c || numericExtra c)

/-- Fields the `read_csv` C parser converts to booleans. -/
def boolTokens : List String :=
  ["True", "False", "TRUE", "FALSE", "true", "false"]

/-- Lowercase an ASCII letter, leaving other characters unchanged. -/
def lowerChar (c : Char) : Char :=
  if 'A' ≤ c ∧ c ≤ 'Z' then Char.ofNat (c.toNat + 32) else c

/-- Drop one leading sign character. -/
def stripSign : List Char → List Char
  | '+' :: rest => rest
  | '-' :: rest => rest
  | f => f

/-- Fields the `read_csv` numeric converter accepts without any digit: an
optional sign followed by an infinity or NaN word, case-insensitively
(pandas's `xstrtod` family parses `inf`, `Infinity`, `nan`, ...). Blanks
are ignored, conservatively excluding some harmless fields as well. -/
def isInfLike (f : List Char) : Bool :=
  stripSign ((f.filter (fun c => c != ' ')).map lowerChar) == "inf".data ||
  stripSign ((f.filter (fun c => c != ' ')).map lowerChar) == "infinity".data ||
  stripSign ((f.filter (fun c => c != ' ')).map lowerChar) == "nan".data

/-- A nonempty field with no separator, quote or line break. -/
def plainChars (f : List Char) : Bool :=
  !f.isEmpty && f.all (fun c => !specialChar c)

/-- A text cell whose CSV image re-parses as exactly the same text: plain
characters, not an NA token, not number-like, not boolean-like, and not a
digit-free infinity or NaN word. -/
def plainText (s : String) : Bool :=
  plainChars s.data && !isNAField s.data && !looksNumericLike s.data &&
    !(decide (s ∈ boolTokens)) && !isInfLike s.data

/-- Cells whose CSV image re-parses exactly under the recorded column
kind: integral numerics within the int64 range in numeric columns (an
int64 column holds exactly these, and `read_csv` re-parses them exactly,
without the float64 conversion that integers past int64 would suffer),
plain text in text columns, missing anywhere. -/
def cellFitB : Dtype → Cell → Bool
  | _, Cell.na => true
  | Dtype.numeric, Cell.num q =>
    decide (q.den = 1 ∧ -9223372036854775808 ≤ q.num ∧ q.num < 9223372036854775808)
  | Dtype.text, Cell.str s => plainText s
  | _, _ => false

/-- A row of the right length whose cells all fit their column kinds. -/
def rowFitB (dts : List Dtype) (r : List Cell) : Bool :=
  decide (r.length = dts.length) && (List.zip dts r).all (fun p => cellFitB p.1 p.2)

/-- Tables whose CSV serialization round-trips: consistent lengths, plain
distinct nonempty column names, every cell fitting its column kind, and no
possibility of a data row serializing to a blank line (which
`skip_blank_lines` would drop: with a single column, no missing cells). -/
def plainDF (df : DF) : Prop :=
  df.dtypes.length = df.header.length ∧
  df.header ≠ [] ∧
  df.header.Nodup ∧
  (∀ s ∈ df.header, plainChars s.data = true) ∧
  (∀ r ∈ df.rows, rowFitB df.dtypes r = true) ∧
  (1 < df.header.length ∨ ∀ r ∈ df.rows, ∀ c0 ∈ r, c0 ≠ Cell.na)

/-- Plainness is checkable. -/
instance plainDF_decidable (df : DF) : Decidable (plainDF df) := by
  unfold plainDF
  infer_instance

/-- The empty field is an NA token. -/
theorem isNAField_nil : isNAField [] = true := by decide

/-- No nonempty NA token consists solely of digits and minus signs. -/
theorem naTokens_not_digit_minus :
    ∀ t ∈ naTokens, t ≠ [] → ¬∀ ch ∈ t, (isDigitChar ch = true ∨ ch = '-') := by
  decide

/-- Characters of a printed integer: digits and a possible minus sign. -/
theorem printInt_chars (m : Int) :
    ∀ ch ∈ printInt m, isDigitChar ch = true ∨ ch = '-' := by
  cases m with
  | ofNat n => exact fun ch hch => Or.inl (printNat_digits n ch hch)
  | negSucc k =>
    intro ch hch
    rcases List.mem_cons.mp hch with h | h
    · exact Or.inr h
    · exact Or.inl (printNat_digits (k + 1) ch h)

/-- A printed integer is never the empty string. -/
theorem printInt_ne_nil (m : Int) : printInt m ≠ [] := by
  cases m with
  | ofNat n => exact printNat_ne_nil n
  | negSucc k => simp [printInt]

/-- A printed integer is not an NA token. -/
theorem isNAField_printInt (m : Int) : isNAField (printInt m) = false := by
  by_contra h
  have hmem : printInt m ∈ naTokens := by
    have := Bool.not_eq_false (isNAField (printInt m))
    simpa [isNAField, h] using of_decide_eq_true (by
      cases hna : isNAField (printInt m)
      · exact absurd hna h
      · simpa [isNAField] using hna)
  exact naTokens_not_digit_minus _ hmem (printInt_ne_nil m) (printInt_chars m)

/-- Digits and minus signs are not special CSV characters. -/
theorem not_special_of_digit_minus (ch : Char)
    (h : isDigitChar ch = true ∨ ch = '-') : specialChar ch = false := by
  rcases h with h | h
  · by_contra hs
    have hs' : specialChar ch = true := by
      cases hsc : specialChar ch
      · exact absurd hsc hs
      · rfl
    simp only [specialChar, Bool.or_eq_true, beq_iff_eq] at hs'
    rcases hs' with ((e | e) | e) | e <;> (subst e; exact absurd h (by decide))
  · subst h; decide

/-- Integral rationals print as their integer numerator. -/
theorem printRat_int (q : Rat) (h : q.den = 1) : printRat q = printInt q.num := by
  simp [printRat, h]

/-- Fitting cells render with no special characters. -/
theorem fieldOfCell_not_special (dt : Dtype) (c : Cell) (hfit : cellFitB dt c = true) :
    ∀ ch ∈ fieldOfCell c, specialChar ch = false := by
  cases c with
  | na => intro ch hch; exact absurd hch (List.not_mem_nil ch)
  | num q =>
    cases dt with
    | text => exact absurd hfit (by simp [cellFitB])
    | numeric =>
      have hden : q.den = 1 := (of_decide_eq_true hfit).1
      intro ch hch
      rw [fieldOfCell, printRat_int q hden] at hch
      exact not_special_of_digit_minus ch (printInt_chars q.num ch hch)
  | str s =>
    cases dt with
    | numeric => exact absurd hfit (by simp [cellFitB])
    | text =>
      have hplain : plainChars s.data = true := by
        simp only [cellFitB, plainText, Bool.and_eq_true] at hfit
        exact hfit.1.1.1.1
      intro ch hch
      have := (Bool.and_eq_true _ _).mp hplain
      have hall := List.all_eq_true.mp this.2 ch hch
      simpa using hall

/-- Fields with no special characters are written unquoted. -/
theorem quoteField_plain (f : List Char)
    (h : ∀ ch ∈ f, specialChar ch = false) : quoteField f = f := by
  have hq : needsQuote f = false := by
    rw [needsQuote]
    cases hany : f.any specialChar
    · rfl
    · obtain ⟨ch, hch, hs⟩ := List.any_eq_true.mp hany
      rw [h ch hch] at hs
      exact absurd hs (by decide)
  simp [quoteField, hq]

/-- Numeric-fitting cells always pass the numeric-column field test. -/
theorem fieldNumOk_of_numeric_cell (c : Cell) (hfit : cellFitB Dtype.numeric c = true) :
    fieldNumOk (fieldOfCell c) = true := by
  cases c with
  | na => simp [fieldNumOk, fieldOfCell, isNAField_nil]
  | num q =>
    have hden : q.den = 1 := (of_decide_eq_true hfit).1
    simp [fieldNumOk, fieldOfCell, printRat_int q hden, parseIntChars_printInt]
  | str s => exact absurd hfit (by simp [cellFitB])

/-- Fields that do not look numeric never parse as integers. -/
theorem parseIntChars_none_of_not_numericLike (f : List Char)
    (h : looksNumericLike f = false) : parseIntChars f = none := by
  cases hp : parseIntChars f with
  | none => rfl
  | some m =>
    exfalso
    have hlt : looksNumericLike f = true := by
      cases f with
      | nil => simp [parseIntChars] at hp
      | cons c rest =>
        by_cases hc : c = '-'
        · subst hc
          simp only [parseIntChars, if_pos rfl] at hp
          cases hpn : parseNatChars rest with
          | none => rw [hpn] at hp; simp at hp
          | some n =>
            have hcond := hpn
            rw [parseNatChars] at hcond
            by_cases hok : (!rest.isEmpty && rest.all isDigitChar) = true
            · have hrest := (Bool.and_eq_true _ _).mp hok
              have hrne : rest ≠ [] := by
                cases rest with
                | nil => simp at hrest
                | cons a as => exact List.cons_ne_nil a as
              have hdig := List.all_eq_true.mp hrest.2
              cases rest with
              | nil => exact absurd rfl hrne
              | cons a as =>
                refine (Bool.and_eq_true _ _).mpr ⟨?_, ?_⟩
                · exact List.any_eq_true.mpr
                    ⟨a, List.mem_cons_of_mem _ (List.mem_cons_self a as),
                      hdig a (List.mem_cons_self a as)⟩
                · refine List.all_eq_true.mpr ?_
                  intro ch hch
                  rcases List.mem_cons.mp hch with e | e
                  · subst e; decide
                  · simp [hdig ch e]
            · rw [if_neg hok] at hcond; exact Option.noConfusion hcond
        · simp only [parseIntChars, if_neg hc] at hp
          cases hpn : parseNatChars (c :: rest) with
          | none => rw [hpn] at hp; simp at hp
          | some n =>
            have hcond := hpn
            rw [parseNatChars] at hcond
            by_cases hok : (!(c :: rest).isEmpty && (c :: rest).all isDigitChar) = true
            · have hrest := (Bool.and_eq_true _ _).mp hok
              have hdig := List.all_eq_true.mp hrest.2
              refine (Bool.and_eq_true _ _).mpr ⟨?_, ?_⟩
              · exact List.any_eq_true.mpr
                  ⟨c, List.mem_cons_self c rest, hdig c (List.mem_cons_self c rest)⟩
              · refine List.all_eq_true.mpr ?_
                intro ch hch
                simp [hdig ch hch]
            · rw [if_neg hok] at hcond; exact Option.noConfusion hcond
    rw [h] at hlt
    exact absurd hlt (by decide)

/-- Plain text fields fail the numeric-column field test. -/
theorem fieldNumOk_text_false (s : String) (h : plainText s = true) :
    fieldNumOk s.data = false := by
  simp only [plainText, Bool.and_eq_true] at h
  obtain ⟨⟨⟨⟨_, hna⟩, hnum⟩, _⟩, _⟩ := h
  have hna' : isNAField s.data = false := by
    cases e : isNAField s.data
    · rfl
    · rw [e] at hna; exact absurd hna (by decide)
  have hnum' : looksNumericLike s.data = false := by
    cases e : looksNumericLike s.data
    · rfl
    · rw [e] at hnum; exact absurd hnum (by decide)
  simp [fieldNumOk, hna', parseIntChars_none_of_not_numericLike _ hnum']

/-- Rebuilding a string from its characters yields the same string. -/
theorem string_mk_data (s : String) : String.mk s.data = s := by
  cases s
  rfl

/-- The empty field always reloads as a missing cell. -/
theorem mkCell_nil (b : Bool) : mkCell b [] = Cell.na := by
  simp [mkCell, isNAField_nil]

/-- An integral numeric cell reloads exactly in a numeric column. -/
theorem mkCell_num (q : Rat) (h : q.den = 1) :
    mkCell true (fieldOfCell (Cell.num q)) = Cell.num q := by
  rw [fieldOfCell, printRat_int q h]
  simp only [mkCell, isNAField_printInt, parseIntChars_printInt]
  simp only [Bool.false_eq_true, if_false, if_pos rfl]
  refine congrArg Cell.num (Rat.ext ?_ ?_)
  · simp
  · simp [h]

/-- A plain text cell reloads exactly in a text column. -/
theorem mkCell_str (s : String) (h : plainText s = true) :
    mkCell false s.data = Cell.str s := by
  simp only [plainText, Bool.and_eq_true] at h
  obtain ⟨⟨⟨⟨_, hna⟩, _⟩, _⟩, _⟩ := h
  have hna' : isNAField s.data = false := by
    cases e : isNAField s.data
    · rfl
    · rw [e] at hna; exact absurd hna (by decide)
  simp [mkCell, hna', string_mk_data]

/-- Splitting always produces at least one piece. -/
theorem splitOnChar_ne_nil (sep : Char) : ∀ cs, splitOnChar sep cs ≠ [] := by
  intro cs
  induction cs with
  | nil => simp [splitOnChar]
  | cons c rest ih =>
    cases hsp : splitOnChar sep rest with
    | nil => exact absurd hsp ih
    | cons a as =>
      simp only [splitOnChar, hsp]
      split_ifs <;> simp

/-- Splitting at a leading separator emits an empty piece. -/
theorem splitOnChar_sep_cons (sep : Char) (rest : List Char) :
    splitOnChar sep (sep :: rest) = [] :: splitOnChar sep rest := by
  cases hsp : splitOnChar sep rest with
  | nil => exact absurd hsp (splitOnChar_ne_nil sep rest)
  | cons a as => simp [splitOnChar, hsp]

/-- Splitting a separator-free prefix followed by a separator peels off the
prefix. -/
theorem splitOnChar_append_sep (sep : Char) :
    ∀ (l rest : List Char), (∀ ch ∈ l, ch ≠ sep) →
      splitOnChar sep (l ++ sep :: rest) = l :: splitOnChar sep rest := by
  intro l
  induction l with
  | nil => intro rest _; exact splitOnChar_sep_cons sep rest
  | cons c l ih =>
    intro rest h
    have hc : c ≠ sep := h c (List.mem_cons_self c l)
    have ih' := ih rest (fun ch hch => h ch (List.mem_cons_of_mem c hch))
    cases hsp : splitOnChar sep rest with
    | nil => exact absurd hsp (splitOnChar_ne_nil sep rest)
    | cons a as =>
      rw [hsp] at ih'
      simp [splitOnChar, List.cons_append, ih', if_neg hc]

/-- Splitting a separator-free stream returns it whole. -/
theorem splitOnChar_no_sep (sep : Char) :
    ∀ (l : List Char), (∀ ch ∈ l, ch ≠ sep) → splitOnChar sep l = [l] := by
  intro l
  induction l with
  | nil => intro _; rfl
  | cons c l ih =>
    intro h
    have hc : c ≠ sep := h c (List.mem_cons_self c l)
    have ih' := ih (fun ch hch => h ch (List.mem_cons_of_mem c hch))
    simp [splitOnChar, ih', if_neg hc]

/-- Splitting inverts joining for separator-free fields. -/
theorem splitOnChar_joinSep (sep : Char) :
    ∀ (fields : List (List Char)), fields ≠ [] →
      (∀ f ∈ fields, ∀ ch ∈ f, ch ≠ sep) →
      splitOnChar sep (joinSep sep fields) = fields := by
  intro fields
  induction fields with
  | nil => intro h _; exact absurd rfl h
  | cons f fs ih =>
    intro _ h
    cases fs with
    | nil =>
      rw [joinSep]
      exact splitOnChar_no_sep sep f (h f (List.mem_cons_self f []))
    | cons g rest =>
      rw [joinSep, splitOnChar_append_sep sep f _ (h f (List.mem_cons_self f _))]
      rw [ih (List.cons_ne_nil g rest) (fun x hx ch hch => h x (List.mem_cons_of_mem f hx) ch hch)]

/-- Splitting the concatenation of terminator-ended lines recovers the
lines, plus one empty trailing piece. -/
theorem splitOnChar_flatten (sep : Char) :
    ∀ (lines : List (List Char)), (∀ l ∈ lines, ∀ ch ∈ l, ch ≠ sep) →
      splitOnChar sep ((lines.map (fun l => l ++ [sep])).flatten) = lines ++ [[]] := by
  intro lines
  induction lines with
  | nil => intro _; rfl
  | cons l ls ih =>
    intro h
    have hl := h l (List.mem_cons_self l ls)
    have ih' := ih (fun x hx ch hch => h x (List.mem_cons_of_mem l hx) ch hch)
    simp only [List.map_cons, List.flatten_cons, List.append_assoc, List.singleton_append]
    rw [splitOnChar_append_sep sep l _ hl, ih']
    rfl

/-- Every character of a joined field list is the separator or a field
character. -/
theorem mem_joinSep (sep : Char) :
    ∀ (fields : List (List Char)) (ch : Char), ch ∈ joinSep sep fields →
      ch = sep ∨ ∃ f ∈ fields, ch ∈ f := by
  intro fields
  induction fields with
  | nil => intro ch hch; exact absurd hch (List.not_mem_nil ch)
  | cons f fs ih =>
    intro ch hch
    cases fs with
    | nil => exact Or.inr ⟨f, List.mem_cons_self f [], hch⟩
    | cons g rest =>
      rw [joinSep] at hch
      rcases List.mem_append.mp hch with h | h
      · exact Or.inr ⟨f, List.mem_cons_self f _, h⟩
      · rcases List.mem_cons.mp h with h | h
        · exact Or.inl h
        · rcases ih ch h with h' | ⟨x, hx, hchx⟩
          · exact Or.inl h'
          · exact Or.inr ⟨x, List.mem_cons_of_mem f hx, hchx⟩

/-- Joining at least two fields is never empty. -/
theorem joinSep_two_ne_nil (sep : Char) (f g : List Char) (rest : List (List Char)) :
    joinSep sep (f :: g :: rest) ≠ [] := by
  rw [joinSep]
  cases f <;> simp

/-- A printed rational is never the empty string. -/
theorem printRat_ne_nil (q : Rat) : printRat q ≠ [] := by
  rw [printRat]
  split_ifs with h
  · exact printInt_ne_nil q.num
  · intro hc
    simp [printDecimal, List.append_eq_nil] at hc

/-- Quoting preserves nonemptiness. -/
theorem quoteField_ne_nil (f : List Char) (h : f ≠ []) : quoteField f ≠ [] := by
  rw [quoteField]
  split_ifs <;> simp [h]

/-- A fitting row has the same length as the column-kind list. -/
theorem rowFit_length {dts : List Dtype} {r : List Cell}
    (h : rowFitB dts r = true) : r.length = dts.length :=
  of_decide_eq_true ((Bool.and_eq_true _ _).mp h).1

/-- Each cell of a fitting row fits its column kind. -/
theorem rowFit_cell {dts : List Dtype} {r : List Cell} (h : rowFitB dts r = true)
    (j : Nat) (hj : j < r.length) (hj2 : j < dts.length) :
    cellFitB (dts[j]) (r[j]) = true := by
  have hall := ((Bool.and_eq_true _ _).mp h).2
  have hlen : j < (List.zip dts r).length := by
    rw [List.length_zip]
    exact Nat.lt_min.mpr ⟨hj2, hj⟩
  have hmem : (dts[j], r[j]) ∈ List.zip dts r := by
    have h1 : (List.zip dts r)[j] = (dts[j], r[j]) := List.getElem_zip
    rw [← h1]
    exact List.getElem_mem _
  exact List.all_eq_true.mp hall _ hmem

/-- Every cell of a fitting row fits some column kind. -/
theorem rowFit_mem_fit {dts : List Dtype} {r : List Cell} (h : rowFitB dts r = true) :
    ∀ c ∈ r, ∃ dt, cellFitB dt c = true := by
  intro c hc
  obtain ⟨j, hj, rfl⟩ := List.mem_iff_getElem.mp hc
  have hj2 : j < dts.length := (rowFit_length h) ▸ hj
  exact ⟨dts[j], rowFit_cell h j hj hj2⟩

/-- Characters of a set of plain characters are not special. -/
theorem plainChars_not_special {f : List Char} (h : plainChars f = true) :
    f ≠ [] ∧ ∀ ch ∈ f, specialChar ch = false := by
  obtain ⟨hne, hall⟩ := (Bool.and_eq_true _ _).mp h
  constructor
  · cases f with
    | nil => exact absurd hne (by decide)
    | cons a as => exact List.cons_ne_nil a as
  · intro ch hch
    have := List.all_eq_true.mp hall ch hch
    simpa using this

/-- A fitting row renders unquoted. -/
theorem renderRow_eq {dts : List Dtype} {r : List Cell} (h : rowFitB dts r = true) :
    renderRow r = joinSep ',' (r.map fieldOfCell) := by
  unfold renderRow
  refine congrArg (joinSep ',') (List.map_congr_left ?_)
  intro c hc
  obtain ⟨dt, hfit⟩ := rowFit_mem_fit h c hc
  exact quoteField_plain _ (fieldOfCell_not_special dt c hfit)

/-- A fitting row's rendering contains no line break. -/
theorem renderRow_no_newline {dts : List Dtype} {r : List Cell}
    (h : rowFitB dts r = true) : ∀ ch ∈ renderRow r, ch ≠ '\n' := by
  rw [renderRow_eq h]
  intro ch hch
  rcases mem_joinSep ',' _ ch hch with e | ⟨f, hf, hchf⟩
  · subst e; decide
  · obtain ⟨c, hc, rfl⟩ := List.mem_map.mp hf
    obtain ⟨dt, hfit⟩ := rowFit_mem_fit h c hc
    have := fieldOfCell_not_special dt c hfit ch hchf
    intro e; subst e
    exact absurd this (by decide)

/-- The fields of a fitting row contain no separator. -/
theorem renderRow_fields_no_comma {dts : List Dtype} {r : List Cell}
    (h : rowFitB dts r = true) :
    ∀ f ∈ r.map fieldOfCell, ∀ ch ∈ f, ch ≠ ',' := by
  intro f hf ch hchf
  obtain ⟨c, hc, rfl⟩ := List.mem_map.mp hf
  obtain ⟨dt, hfit⟩ := rowFit_mem_fit h c hc
  have := fieldOfCell_not_special dt c hfit ch hchf
  intro e; subst e
  exact absurd this (by decide)

/-- A fitting nonempty row that cannot serialize to a blank line renders
nonempty. -/
theorem renderRow_ne_nil {dts : List Dtype} {r : List Cell} (h : rowFitB dts r = true)
    (hbl : 2 ≤ r.length ∨ ∀ c ∈ r, c ≠ Cell.na) (hne : r ≠ []) :
    renderRow r ≠ [] := by
  rw [renderRow_eq h]
  cases r with
  | nil => exact absurd rfl hne
  | cons c cs =>
    cases cs with
    | cons c2 rest => exact joinSep_two_ne_nil ',' _ _ _
    | nil =>
      simp only [List.map_cons, List.map_nil, joinSep]
      rcases hbl with h2 | hna
      · simp at h2
      · have hcna : c ≠ Cell.na := hna c (List.mem_cons_self c [])
        obtain ⟨dt, hfit⟩ := rowFit_mem_fit h c (List.mem_cons_self c [])
        cases c with
        | na => exact absurd rfl hcna
        | num q => exact printRat_ne_nil q
        | str s =>
          cases dt with
          | numeric => exact absurd hfit (by simp [cellFitB])
          | text =>
            have hplain : plainChars s.data = true := by
              simp only [cellFitB, plainText, Bool.and_eq_true] at hfit
              exact hfit.1.1.1.1
            exact (plainChars_not_special hplain).1

/-- Plain header names render unquoted. -/
theorem headerLine_eq (hd : List String) (h : ∀ s ∈ hd, plainChars s.data = true) :
    joinSep ',' (hd.map (fun s => quoteField s.data)) =
      joinSep ',' (hd.map (fun s => s.data)) := by
  refine congrArg (joinSep ',') (List.map_congr_left ?_)
  intro s hs
  exact quoteField_plain _ (plainChars_not_special (h s hs)).2

/-- A nonempty plain header renders nonempty. -/
theorem headerLine_ne_nil (hd : List String) (h : ∀ s ∈ hd, plainChars s.data = true)
    (hne : hd ≠ []) : joinSep ',' (hd.map (fun s => s.data)) ≠ [] := by
  cases hd with
  | nil => exact absurd rfl hne
  | cons s rest =>
    cases rest with
    | cons s2 r2 => exact joinSep_two_ne_nil ',' _ _ _
    | nil =>
      simp only [List.map_cons, List.map_nil, joinSep]
      exact (plainChars_not_special (h s (List.mem_cons_self s []))).1

/-- A plain header line contains no line break. -/
theorem headerLine_no_newline (hd : List String)
    (h : ∀ s ∈ hd, plainChars s.data = true) :
    ∀ ch ∈ joinSep ',' (hd.map (fun s => s.data)), ch ≠ '\n' := by
  intro ch hch
  rcases mem_joinSep ',' _ ch hch with e | ⟨f, hf, hchf⟩
  · subst e; decide
  · obtain ⟨s, hs, rfl⟩ := List.mem_map.mp hf
    have := (plainChars_not_special (h s hs)).2 ch hchf
    intro e; subst e
    exact absurd this (by decide)

/-- Splitting a plain header line recovers the names. -/
theorem headerLine_split (hd : List String)
    (h : ∀ s ∈ hd, plainChars s.data = true) (hne : hd ≠ []) :
    splitOnChar ',' (joinSep ',' (hd.map (fun s => s.data))) =
      hd.map (fun s => s.data) := by
  refine splitOnChar_joinSep ',' _ ?_ ?_
  · intro e
    exact hne (List.map_eq_nil_iff.mp e)
  · intro f hf ch hchf
    obtain ⟨s, hs, rfl⟩ := List.mem_map.mp hf
    have := (plainChars_not_special (h s hs)).2 ch hchf
    intro e; subst e
    exact absurd this (by decide)

/-- Reparsing the rendered fields of a fitting table under the inferred
column flags reproduces the rows exactly. -/
theorem reload_rows (df : DF) (hlen : df.dtypes.length = df.header.length)
    (hfit : ∀ r ∈ df.rows, rowFitB df.dtypes r = true) :
    (df.rows.map (fun r => r.map fieldOfCell)).map
      (fun rr => List.zipWith mkCell
        ((List.range df.header.length).map (fun j =>
          (df.rows.map (fun r => r.map fieldOfCell)).all
            (fun rr2 => fieldNumOk (rr2.getD j [])))) rr) = df.rows := by
  set rawRows := df.rows.map (fun r => r.map fieldOfCell) with hraw
  set flags := (List.range df.header.length).map (fun j =>
    rawRows.all (fun rr2 => fieldNumOk (rr2.getD j []))) with hflags
  have hflagslen : flags.length = df.header.length := by
    rw [hflags, List.length_map, List.length_range]
  have hrowlen : ∀ r ∈ df.rows, r.length = df.header.length := by
    intro r hr
    rw [rowFit_length (hfit r hr), hlen]
  have hgetraw : ∀ j, ∀ r' ∈ df.rows, j < df.header.length →
      (r'.map fieldOfCell).getD j [] = fieldOfCell (r'.getD j Cell.na) := by
    intro j r' hr' hj
    have hjr : j < r'.length := by rw [hrowlen r' hr']; exact hj
    have hjm : j < (r'.map fieldOfCell).length := by rw [List.length_map]; exact hjr
    rw [List.getD_eq_getElem _ _ hjm, List.getD_eq_getElem _ _ hjr, List.getElem_map]
  rw [List.map_map]
  refine map_eq_self_of_mem _ _ ?_
  intro r hr
  have hrfit := hfit r hr
  have hrlen : r.length = df.header.length := hrowlen r hr
  show List.zipWith mkCell flags (List.map fieldOfCell r) = r
  refine List.ext_getElem ?_ ?_
  · simp only [List.length_zipWith, List.length_map, hflagslen, hrlen]
    exact Nat.min_self _
  · intro j hj1 hj2
    have hjh : j < df.header.length := by rw [← hrlen]; exact hj2
    have hjd : j < df.dtypes.length := by rw [hlen]; exact hjh
    have hjm : j < (r.map fieldOfCell).length := by rw [List.length_map]; exact hj2
    have hjf : j < flags.length := by rw [hflagslen]; exact hjh
    rw [List.getElem_zipWith]
    have hfield : (r.map fieldOfCell)[j] = fieldOfCell (r[j]) := List.getElem_map _
    have hflagj : flags[j] =
        rawRows.all (fun rr2 => fieldNumOk (rr2.getD j [])) := by
      simp only [hflags]
      simp [List.getElem_map, List.getElem_range]
    have hcell : cellFitB (df.dtypes[j]) (r[j]) = true :=
      rowFit_cell hrfit j hj2 hjd
    rw [hfield, hflagj]
    cases hdt : df.dtypes[j] with
    | numeric =>
      rw [hdt] at hcell
      have hflag : rawRows.all (fun rr2 => fieldNumOk (rr2.getD j [])) = true := by
        refine List.all_eq_true.mpr ?_
        intro rr2 hrr2
        obtain ⟨r', hr', rfl⟩ := List.mem_map.mp hrr2
        rw [hgetraw j r' hr' hjh]
        have hjr' : j < r'.length := by rw [hrowlen r' hr']; exact hjh
        rw [List.getD_eq_getElem _ _ hjr']
        have hcell' : cellFitB (df.dtypes[j]) (r'[j]) = true :=
          rowFit_cell (hfit r' hr') j hjr' hjd
        rw [hdt] at hcell'
        exact fieldNumOk_of_numeric_cell _ hcell'
      rw [hflag]
      cases hc : r[j] with
      | na => exact mkCell_nil true
      | num q =>
        rw [hc] at hcell
        exact mkCell_num q (of_decide_eq_true hcell).1
      | str s =>
        rw [hc] at hcell
        exact absurd hcell (by simp [cellFitB])
    | text =>
      rw [hdt] at hcell
      cases hc : r[j] with
      | na => exact mkCell_nil _
      | num q =>
        rw [hc] at hcell
        exact absurd hcell (by simp [cellFitB])
      | str s =>
        rw [hc] at hcell
        have hflag : rawRows.all (fun rr2 => fieldNumOk (rr2.getD j [])) = false := by
          cases hval : rawRows.all (fun rr2 => fieldNumOk (rr2.getD j [])) with
          | false => rfl
          | true =>
            exfalso
            have hmem : r.map fieldOfCell ∈ rawRows := by
              rw [hraw]; exact List.mem_map_of_mem _ hr
            have := List.all_eq_true.mp hval _ hmem
            rw [hgetraw j r hr hjh, List.getD_eq_getElem _ _ hj2, hc] at this
            simp only [fieldOfCell] at this
            rw [fieldNumOk_text_false s hcell] at this
            exact absurd this (by decide)
        rw [hflag]
        exact mkCell_str s hcell

/-- Filtering away blank lines keeps all nonempty lines and drops the
trailing empty piece. -/
theorem filter_nonempty_lines :
    ∀ (tl : List (List Char)), (∀ l ∈ tl, l ≠ []) →
      (tl ++ [[]]).filter (fun l => !l.isEmpty) = tl := by
  intro tl
  induction tl with
  | nil => intro _; rfl
  | cons l ls ih =>
    intro h
    have hl : l ≠ [] := h l (List.mem_cons_self l ls)
    have hb : (!l.isEmpty) = true := by
      cases l with
      | nil => exact absurd rfl hl
      | cons a as => rfl
    simp only [List.cons_append, List.filter_cons, hb, if_true]
    exact congrArg (l :: ·) (ih (fun x hx => h x (List.mem_cons_of_mem l hx)))

/-- Evaluation of `read_csv` once the line structure is known. -/
theorem read_csv_eq_branch (cs hline : List Char) (dlines : List (List Char))
    (hf : (splitOnChar '\n' cs).filter (fun l => !l.isEmpty) = hline :: dlines) :
    read_csv cs =
      (if (dlines.map (splitOnChar ',')).all
          (fun r => r.length == (splitOnChar ',' hline).length) then
        some { header := (splitOnChar ',' hline).map String.mk,
               dtypes := ((List.range (splitOnChar ',' hline).length).map (fun j =>
                 (dlines.map (splitOnChar ',')).all
                   (fun r2 => fieldNumOk (r2.getD j [])))).map
                 (fun b => if b then Dtype.numeric else Dtype.text),
               rows := (dlines.map (splitOnChar ',')).map (fun r => List.zipWith mkCell
                 ((List.range (splitOnChar ',' hline).length).map (fun j =>
                   (dlines.map (splitOnChar ',')).all
                     (fun r2 => fieldNumOk (r2.getD j [])))) r) }
      else none) := by
  unfold read_csv
  rw [hf]

/-- Serializing a plain table to CSV and parsing the bytes back yields a
table with the same column names and exactly the same rows. -/
theorem read_csv_to_csv (df : DF) (h : plainDF df) :
    ∃ d, read_csv (to_csv df) = some d ∧ d.header = df.header ∧ d.rows = df.rows := by
  obtain ⟨hlen, hne, _hnodup, hnames, hfit, hbl⟩ := h
  have hheaderpos : 0 < df.header.length := List.length_pos.mpr hne
  have hrne : ∀ r ∈ df.rows, r ≠ [] := by
    intro r hr
    have hrl : r.length = df.header.length := by rw [rowFit_length (hfit r hr), hlen]
    intro e
    rw [e] at hrl
    simp only [List.length_nil] at hrl
    omega
  have hto : to_csv df = joinSep ',' (df.header.map (fun s => s.data)) ++
      '\n' :: (((df.rows.map renderRow).map (fun l => l ++ ['\n'])).flatten) := by
    rw [to_csv, headerLine_eq df.header hnames, List.map_map]
    rfl
  have hsplit : splitOnChar '\n' (to_csv df) =
      joinSep ',' (df.header.map (fun s => s.data)) :: (df.rows.map renderRow ++ [[]]) := by
    rw [hto, splitOnChar_append_sep '\n' _ _ (headerLine_no_newline df.header hnames),
      splitOnChar_flatten '\n' _ ?_]
    intro l hl ch hch
    obtain ⟨r, hr, rfl⟩ := List.mem_map.mp hl
    exact renderRow_no_newline (hfit r hr) ch hch
  have hkeep : ∀ l ∈ df.rows.map renderRow, l ≠ [] := by
    intro l hl
    obtain ⟨r, hr, rfl⟩ := List.mem_map.mp hl
    have hblr : 2 ≤ r.length ∨ ∀ c ∈ r, c ≠ Cell.na := by
      rcases hbl with h2 | hna
      · left
        rw [rowFit_length (hfit r hr), hlen]
        omega
      · right
        exact hna r hr
    exact renderRow_ne_nil (hfit r hr) hblr (hrne r hr)
  have hhne : (!(joinSep ',' (df.header.map (fun s => s.data))).isEmpty) = true := by
    have := headerLine_ne_nil df.header hnames hne
    cases hj : joinSep ',' (df.header.map (fun s => s.data)) with
    | nil => exact absurd hj this
    | cons a as => rfl
  have hfilter : (splitOnChar '\n' (to_csv df)).filter (fun l => !l.isEmpty) =
      joinSep ',' (df.header.map (fun s => s.data)) :: df.rows.map renderRow := by
    rw [hsplit]
    simp only [List.filter_cons, hhne, if_true]
    exact congrArg (joinSep ',' (df.header.map (fun s => s.data)) :: ·)
      (filter_nonempty_lines _ hkeep)
  have hrawRows : (df.rows.map renderRow).map (splitOnChar ',') =
      df.rows.map (fun r => r.map fieldOfCell) := by
    rw [List.map_map]
    refine List.map_congr_left ?_
    intro r hr
    show splitOnChar ',' (renderRow r) = r.map fieldOfCell
    rw [renderRow_eq (hfit r hr)]
    refine splitOnChar_joinSep ',' _ ?_ (renderRow_fields_no_comma (hfit r hr))
    intro e
    exact hrne r hr (List.map_eq_nil_iff.mp e)
  have hread := read_csv_eq_branch (to_csv df) _ _ hfilter
  rw [headerLine_split df.header hnames hne, hrawRows, List.length_map] at hread
  have hragged : (df.rows.map (fun r => r.map fieldOfCell)).all
      (fun r => r.length == df.header.length) = true := by
    refine List.all_eq_true.mpr ?_
    intro rr hrr
    obtain ⟨r, hr, rfl⟩ := List.mem_map.mp hrr
    have hl : r.length = df.header.length := by rw [rowFit_length (hfit r hr), hlen]
    simp [hl]
  rw [if_pos hragged] at hread
  refine ⟨_, hread, ?_, ?_⟩
  · show (df.header.map (fun s => s.data)).map String.mk = df.header
    rw [List.map_map]
    have : df.header.map (String.mk ∘ fun s => s.data) = df.header.map id :=
      List.map_congr_left (fun s _ => string_mk_data s)
    rw [this, List.map_id]
  · exact reload_rows df hlen hfit

/-- C1 counterexample: a text column whose cell is the string of digits
`"1"` does not survive the CSV round trip — `read_csv` re-infers the
column as numeric and yields the number 1, not the text `"1"` — so the
round trip does not reproduce every numeric-or-text table value for
value. -/
theorem C1_text_digits_not_round_trip :
    convert_df (DF.mk ["a"] [Dtype.text] [[Cell.str "1"]]) "csv" =
      ExportResult.csvBytes (to_csv (DF.mk ["a"] [Dtype.text] [[Cell.str "1"]])) ∧
    load_data (to_csv (DF.mk ["a"] [Dtype.text] [[Cell.str "1"]])) "x.csv" =
      LoadResult.csv (some (DF.mk ["a"] [Dtype.numeric] [[Cell.num 1]])) ∧
    (DF.mk ["a"] [Dtype.numeric] [[Cell.num 1]]).rows ≠
      (DF.mk ["a"] [Dtype.text] [[Cell.str "1"]]).rows := by
  refine ⟨rfl, by decide, by decide⟩

/-- C1 amended: serializing a table as CSV and loading the bytes back
under a `.csv` name reproduces the column names and every cell exactly,
for plain tables: consistent lengths; nonempty, distinct column names
free of separator, quote and line-break characters; numeric cells holding
integers within the int64 range; text cells that are nonempty, not NA
tokens, not number-like, boolean-like or infinity/NaN words, and free of
special characters; and no row that would serialize to a blank line
(single-column tables have no missing cells). These restrictions exclude
the inputs where pandas's textual round trip is lossy (float formatting,
int64 overflow, NA/boolean/infinity tokens, re-inferred numeric strings,
quoting, blank-line skipping, name mangling). -/
theorem C1_csv_round_trip (df : DF) (h : plainDF df) :
    ∃ bs d, convert_df df "csv" = ExportResult.csvBytes bs ∧
      load_data bs "x.csv" = LoadResult.csv (some d) ∧
      d.header = df.header ∧ d.rows = df.rows := by
  obtain ⟨d, hd, hh, hr⟩ := read_csv_to_csv df h
  refine ⟨to_csv df, d, ?_, ?_, hh, hr⟩
  · simp [convert_df]
  · have hsfx : (".csv".data).isSuffixOf "x.csv".data = true := by decide
    simp [load_data, hsfx, hd]

theorem C1_csv_round_trip_witness :
    plainDF (DF.mk ["a", "b"] [Dtype.numeric, Dtype.text]
      [[Cell.num 3, Cell.str "x"], [Cell.na, Cell.str "yz"]]) ∧
    (∃ bs d, convert_df (DF.mk ["a", "b"] [Dtype.numeric, Dtype.text]
        [[Cell.num 3, Cell.str "x"], [Cell.na, Cell.str "yz"]]) "csv" =
        ExportResult.csvBytes bs ∧
      load_data bs "x.csv" = LoadResult.csv (some d) ∧
      d.header = (DF.mk ["a", "b"] [Dtype.numeric, Dtype.text]
        [[Cell.num 3, Cell.str "x"], [Cell.na, Cell.str "yz"]]).header ∧
      d.rows = (DF.mk ["a", "b"] [Dtype.numeric, Dtype.text]
        [[Cell.num 3, Cell.str "x"], [Cell.na, Cell.str "yz"]]).rows) :=
  ⟨by decide, C1_csv_round_trip (DF.mk ["a", "b"] [Dtype.numeric, Dtype.text]
    [[Cell.num 3, Cell.str "x"], [Cell.na, Cell.str "yz"]]) (by decide)⟩
